import Mathlib

/-!
# Verification of the ezssh-mcp multi-host SSH dispatch core

A shallow embedding, in Lean, of the string- and data-level logic of the
ezssh-mcp repository: host-name sanitization and local-path derivation for
multi-host downloads (`src/tools/transfer.ts`), the bounded-concurrency
runner (`src/utils.ts`), known-hosts parsing and the strict host-key
verifier, connection-config construction, override merging, error
sanitization and per-host command results (`src/ssh/client.ts`), and host
resolution (`src/ssh/config.ts`).

Strings are modelled on `List Char` (wrapped back into `String` at the API
boundary) so that every definition evaluates by kernel reduction.  The
JavaScript string primitives used by the source (`split`, `trim`,
`includes`, `replace` with a global literal or simple regex pattern) are
given explicit executable models below.  File-system and network effects
are passed in as explicit parameters (file contents, an existence oracle,
a read oracle, the session outcome), following the source's use of them.
-/

namespace EzSSH

/-! ## Models of the JavaScript string primitives -/

/-- JS truthiness of an optional string: `undefined` and `""` are falsy. -/
def strTruthy : Option String → Bool
  | none => false
  | some s => s != ""

/-- JS truthiness of an optional number: `undefined` and `0` are falsy. -/
def natTruthy : Option Nat → Bool
  | none => false
  | some n => n != 0

/-- `leadsWith needle hay` holds when `needle` is an initial segment of `hay`. -/
def leadsWith : List Char → List Char → Bool
  | [], _ => true
  | _ :: _, [] => false
  | a :: as, b :: bs => a == b && leadsWith as bs

/-- Contiguous-substring test; model of `String.prototype.includes`. -/
def containsL (needle : List Char) : List Char → Bool
  | [] => needle.isEmpty
  | h :: t => leadsWith needle (h :: t) || containsL needle t

/-- `strContains hay needle`: model of `hay.includes(needle)`. -/
def strContains (hay needle : String) : Bool := containsL needle.data hay.data

/-- Split at every occurrence of a separator character, keeping empty pieces;
model of `String.prototype.split` with a one-character separator. -/
def splitOnCharAux (sep : Char) : List Char → List Char → List (List Char)
  | [], acc => [acc.reverse]
  | c :: cs, acc =>
    if c == sep then acc.reverse :: splitOnCharAux sep cs []
    else splitOnCharAux sep cs (c :: acc)

def splitOnChar (sep : Char) (l : List Char) : List (List Char) := splitOnCharAux sep l []

/-- Split at every character satisfying `p`, keeping empty pieces. -/
def splitPredAux (p : Char → Bool) : List Char → List Char → List (List Char)
  | [], acc => [acc.reverse]
  | c :: cs, acc =>
    if p c then acc.reverse :: splitPredAux p cs []
    else splitPredAux p cs (c :: acc)

/-- Model of `String.prototype.split(/\s+/)` applied to trimmed text: the
whitespace-separated fields, with no empty fields. -/
def splitWsL (l : List Char) : List (List Char) :=
  (splitPredAux Char.isWhitespace l []).filter (fun f => f != [])

/-- Model of `String.prototype.trim`. -/
def trimL (l : List Char) : List Char :=
  ((l.dropWhile Char.isWhitespace).reverse.dropWhile Char.isWhitespace).reverse

/-- One pass of global literal replacement, fueled so that it is structurally
recursive; `fuel` is initialised to the input length, which always suffices
because every step consumes at least one input character.  Model of
`String.prototype.replace` with a global literal pattern (the replacement
text is not rescanned, as in JS). -/
def replaceLitAux (pat repl : List Char) : Nat → List Char → List Char
  | _, [] => []
  | 0, l => l
  | fuel + 1, c :: cs =>
    if !pat.isEmpty && leadsWith pat (c :: cs) then
      repl ++ replaceLitAux pat repl fuel (cs.drop (pat.length - 1))
    else
      c :: replaceLitAux pat repl fuel cs

def replaceAllLiteralL (pat repl l : List Char) : List Char := replaceLitAux pat repl l.length l

/-! ## `sanitizeHostName` — src/tools/transfer.ts lines 8–15 -/

/-- The character class of `SAFE_HOST_PATTERN = /^[a-zA-Z0-9._-]+$/`. -/
def isSafeHostChar (c : Char) : Bool :=
  ('a' ≤ c && c ≤ 'z') || ('A' ≤ c && c ≤ 'Z') || ('0' ≤ c && c ≤ '9') ||
    c == '.' || c == '_' || c == '-'

/-- `sanitizeHostName` from src/tools/transfer.ts: if the host matches
`SAFE_HOST_PATTERN` (non-empty, all characters safe) it is returned as is,
otherwise every unsafe character is replaced with an underscore. -/
def sanitizeHostName (host : String) : String :=
  if !host.data.isEmpty && host.data.all isSafeHostChar then host
  else ⟨host.data.map (fun c => if isSafeHostChar c then c else '_')⟩

/-! ## Models of the Node `path` (posix) functions used by transfer.ts -/

/-- Component processing of Node's posix `path.normalize`: drop empty and
`"."` components, let `".."` pop a previous component, and keep leading
`".."` components only for relative paths (`allowAboveRoot`). -/
def normalizeStack (allowAboveRoot : Bool) : List (List Char) → List (List Char) → List (List Char)
  | acc, [] => acc.reverse
  | acc, comp :: rest =>
    if comp == [] || comp == ['.'] then normalizeStack allowAboveRoot acc rest
    else if comp == ['.', '.'] then
      match acc with
      | [] => if allowAboveRoot then normalizeStack allowAboveRoot [comp] rest
              else normalizeStack allowAboveRoot [] rest
      | top :: below =>
        if top == ['.', '.'] then
          if allowAboveRoot then normalizeStack allowAboveRoot (comp :: acc) rest
          else normalizeStack allowAboveRoot acc rest
        else normalizeStack allowAboveRoot below rest
    else normalizeStack allowAboveRoot (comp :: acc) rest

/-- Model of Node's posix `path.normalize`. -/
def normalize (p : String) : String :=
  if p.data = [] then "."
  else
    let isAbs := p.data.head? == some '/'
    let trailing := p.data.getLast? == some '/'
    let comps := normalizeStack (!isAbs) [] (splitOnChar '/' p.data)
    if comps = [] then
      if isAbs then "/" else if trailing then "./" else "."
    else
      let body := (comps.intersperse ['/']).flatten
      let body := if trailing then body ++ ['/'] else body
      if isAbs then ⟨'/' :: body⟩ else ⟨body⟩

/-- Model of Node's posix `path.join` restricted to two segments (the arity
used by the source): concatenate the non-empty segments with `/` and
normalize. -/
def joinPath (a b : String) : String :=
  match [a, b].filter (fun s => s != "") with
  | [] => "."
  | parts => normalize ⟨((parts.map String.data).intersperse ['/']).flatten⟩

/-- Model of Node's posix `path.dirname`: skip trailing slashes, then skip the
final component; everything before the slash that precedes it is the
directory (with the documented special cases for root and `//`). -/
def dirname (p : String) : String :=
  if p.data = [] then "."
  else
    let hasRoot := p.data.head? == some '/'
    let rev := (p.data.reverse.dropWhile (· == '/')).dropWhile (· != '/')
    let pre := (rev.drop 1).reverse
    if pre = [] then (if hasRoot then "/" else ".")
    else if hasRoot && pre = ['/'] then "//"
    else ⟨pre⟩

/-- The final path component (after the last slash, ignoring trailing
slashes), shared by the `basename`/`extname` models. -/
def lastComponent (p : String) : List Char :=
  ((p.data.reverse.dropWhile (· == '/')).takeWhile (· != '/')).reverse

/-- Model of Node's posix `path.extname`: the suffix of the final component
from its last dot, provided that dot is not its first character; `".."` and
dotless components have no extension. -/
def extname (p : String) : String :=
  let comp := lastComponent p
  if comp == ['.', '.'] then ""
  else
    let tail := (comp.reverse.takeWhile (· != '.')).reverse
    if tail.length == comp.length then ""          -- no dot at all
    else if tail.length + 1 == comp.length then    -- the only dot leads the component
      if comp.head? == some '.' then "" else ⟨'.' :: tail⟩
    else ⟨'.' :: tail⟩

/-- Model of Node's posix `path.basename(p, ext)`: the final component, with
one trailing copy of `ext` removed when the component ends with `ext` and
is not `ext` itself. -/
def basenameExt (p : String) (ext : String) : String :=
  let comp := lastComponent p
  if !ext.data.isEmpty && comp != ext.data && leadsWith ext.data.reverse comp.reverse then
    ⟨(comp.reverse.drop ext.data.length).reverse⟩
  else ⟨comp⟩

/-! ## Local-path derivation for transfers — src/tools/transfer.ts lines 17–83

A failure is the `throw new Error(...)` of the source, embedded as
`Except.error` carrying the thrown message. -/

/-- `resolveLocalPath` from src/tools/transfer.ts: substitute the sanitized
host for every `{host}` placeholder, then reject the result when its
normalization still contains `..`; the returned path is the substituted
(un-normalized) one. -/
def resolveLocalPath (localPath host : String) : Except String String :=
  if strContains localPath "{host}" then
    let sanitizedHost := sanitizeHostName host
    let resolved : String := ⟨replaceAllLiteralL "{host}".data sanitizedHost.data localPath.data⟩
    let normalized := normalize resolved
    if strContains normalized ".." then
      Except.error ("Invalid path after host substitution: " ++ normalized)
    else Except.ok resolved
  else Except.ok localPath

/-- `addHostSuffix` from src/tools/transfer.ts: insert `_<sanitizedHost>`
between the base file name and its extension. -/
def addHostSuffix (localPath host : String) : String :=
  let sanitizedHost := sanitizeHostName host
  let dir := dirname localPath
  let ext := extname localPath
  let base := basenameExt localPath ext
  joinPath dir (base ++ "_" ++ sanitizedHost ++ ext)

/-- The per-host local-path choice of the download branch of `transfer`
(src/tools/transfer.ts lines 59–76): placeholder substitution when the
path contains `{host}`, the host suffix when more than one host is
targeted, and the unchanged path otherwise. -/
def downloadPathForHost (hosts : List String) (localPath host : String) : Except String String :=
  let isMultiHost := hosts.length > 1
  let hasPlaceholder := strContains localPath "{host}"
  if hasPlaceholder then resolveLocalPath localPath host
  else if isMultiHost then Except.ok (addHostSuffix localPath host)
  else Except.ok localPath

/-! ## `runWithConcurrency` — src/utils.ts lines 4–30

The source drives at most `concurrency` worker promises at a time and
stores each result at its item's index, returning the array in input
order.  In this embedding a worker is a function of its item, so every
admissible schedule stores `fn items[i]` at slot `i`; the returned value
is therefore the in-order list of results, independent of the limit.  A
worker that throws synchronously (`Except.error`) rejects the whole
returned promise — the loop calls workers in item order, so the first
error in that order is the rejection and no result list is produced. -/

def runWithConcurrency {α β ε : Type} (items : List α) (fn : α → Except ε β)
    (concurrency : Nat) : Except ε (List β) :=
  match items with
  | [] => Except.ok []
  | x :: xs =>
    match fn x with
    | Except.error e => Except.error e
    | Except.ok r => (runWithConcurrency xs fn concurrency).map (fun rs => r :: rs)

/-- Modelled from the spec: "sequential execution of all items" /
"sequentially mapping the worker over the items in order", the reference
point of the `runBounded` limit-1 claim. -/
def sequentialMap {α β : Type} (items : List α) (w : α → β) : List β := items.map w

/-- Per-host transfer result (src/types.ts). -/
structure TransferResult where
  host : String
  success : Bool
  localPath : String
  remotePath : String
  error : Option String := none
deriving DecidableEq

/-- The download branch of `transfer` (src/tools/transfer.ts lines 57–82):
derive each host's local path, then run the per-host downloads through
`runWithConcurrency`.  The remote download itself is abstracted as the
oracle `download host remotePath resolvedLocalPath`; a path-derivation
error is the synchronous throw of the source worker. -/
def transferDownload (maxConcurrency : Nat) (hosts : List String)
    (localPath remotePath : String)
    (download : String → String → String → TransferResult) :
    Except String (List TransferResult) :=
  runWithConcurrency hosts
    (fun host => (downloadPathForHost hosts localPath host).map
      (fun p => download host remotePath p))
    maxConcurrency

/-! ## Known-hosts parsing and the host verifier — src/ssh/client.ts lines 24–102 -/

/-- One stored known-hosts key (src/ssh/client.ts lines 24–27). -/
structure KnownHostKey where
  keyType : String
  keyData : String
deriving DecidableEq

/-- The `Map<string, KnownHostKey[]>` of the source, as an association list
with unique keys (`mapSet` replaces an existing binding). -/
abbrev KnownHostsMap : Type := List (String × List KnownHostKey)

def mapGet (m : KnownHostsMap) (k : String) : Option (List KnownHostKey) :=
  ((List.find? (fun p => p.1 == k)) m).map (fun p => p.2)

def mapSet (m : KnownHostsMap) (k : String) (v : List KnownHostKey) : KnownHostsMap :=
  if (List.any m (fun p => p.1 == k)) then
    List.map (fun p => if p.1 == k then (k, v) else p) m
  else m ++ [(k, v)]

/-- One line of `parseKnownHosts` (src/ssh/client.ts lines 38–55): skip blank
and `#` lines, tokenize on whitespace, require at least three fields, and
record the key under every comma-separated hostname of the first field. -/
def parseKnownHostsLine (m : KnownHostsMap) (line : List Char) : KnownHostsMap :=
  let trimmed := trimL line
  if trimmed.isEmpty || trimmed.head? == some '#' then m
  else
    let parts := splitWsL trimmed
    if parts.length < 3 then m
    else
      let hostnames := splitOnChar ',' (parts.getD 0 [])
      let keyType : String := ⟨parts.getD 1 []⟩
      let keyData : String := ⟨parts.getD 2 []⟩
      hostnames.foldl
        (fun acc hn =>
          mapSet acc ⟨hn⟩ ((mapGet acc ⟨hn⟩).getD [] ++ [⟨keyType, keyData⟩]))
        m

/-- `parseKnownHosts` from src/ssh/client.ts, over the file's contents (a
missing file behaves as empty contents: both give the empty map). -/
def parseKnownHosts (content : String) : KnownHostsMap :=
  (splitOnChar '\n' content.data).foldl parseKnownHostsLine []

/-- The candidate lookup keys of `createHostVerifier` (src/ssh/client.ts
lines 80–83): the hostname and, when the port is not 22, `[hostname]:port`;
`filter(Boolean)` drops empty strings. -/
def hostVariants (hostname : String) (port : Nat) : List String :=
  (List.filterMap id
      [some hostname,
       if port ≠ 22 then some ("[" ++ hostname ++ "]:" ++ toString port) else none]).filter
    (fun s => s != "")

/-- The verifier loop of `createHostVerifier` (src/ssh/client.ts lines
85–101): for the first candidate key present in the map, trust exactly when
some stored key material equals the presented key's base64 form, and stop
(no fall-through); with no candidate present, reject. -/
def verifyKey (m : KnownHostsMap) : List String → String → Bool
  | [], _ => false
  | v :: vs, keyB64 =>
    match mapGet m v with
    | some knownKeys => knownKeys.any (fun kk => kk.keyData == keyB64)
    | none => verifyKey m vs keyB64

/-- `createHostVerifier` from src/ssh/client.ts: no verifier at all unless
strict host-key checking is configured; in strict mode, the verifier that
compares the presented key's base64 form (the modelled argument) against
the parsed known-hosts map. -/
def createHostVerifier (strict : Bool) (knownHostsContent : String)
    (hostname : String) (port : Nat) : Option (String → Bool) :=
  if !strict then none
  else some (fun keyB64 => verifyKey (parseKnownHosts knownHostsContent) (hostVariants hostname port) keyB64)

/-! ## Connection configuration — src/ssh/client.ts lines 107–154 -/

/-- SSH host record (src/types.ts). -/
structure SSHHost where
  name : String
  hostname : String
  port : Nat
  user : String
  password : Option String := none
  identityFile : Option String := none
deriving DecidableEq

/-- Per-call direct connection options (src/types.ts). -/
structure DirectConnectionOptions where
  username : Option String := none
  password : Option String := none
  port : Option Nat := none
  privateKeyPath : Option String := none
deriving DecidableEq

/-- The ambient inputs of `createConnectConfig`: configuration and the
file-system / agent probes it performs. -/
structure SSHEnv where
  strictHostKeyChecking : Bool
  knownHostsContent : String
  agentSocket : Option String
  fileExists : String → Bool
  readFile : String → String

/-- The fields of the `ssh2` `ConnectConfig` value assigned by the source;
`hostVerifier` records whether a verifier callback was installed. -/
structure ConnectConfig where
  host : String
  port : Nat
  username : String
  readyTimeout : Nat
  hostVerifier : Bool := false
  password : Option String := none
  agent : Option String := none
  privateKey : Option String := none

/-- `createConnectConfig` from src/ssh/client.ts lines 107–139: base fields
with `readyTimeout = timeout || 30000`; a truthy password short-circuits
(returning with no agent and no private key); otherwise the agent socket is
offered when truthy, and — independently — an existing identity file is
read and its contents set as the private key. -/
def createConnectConfig (env : SSHEnv) (host : SSHHost) (timeout : Option Nat) : ConnectConfig :=
  let base : ConnectConfig :=
    { host := host.hostname
      port := host.port
      username := host.user
      readyTimeout := match timeout with
        | some t => if t ≠ 0 then t else 30000
        | none => 30000
      hostVerifier := (createHostVerifier env.strictHostKeyChecking env.knownHostsContent
        host.hostname host.port).isSome }
  if strTruthy host.password then { base with password := host.password }
  else
    let base := if strTruthy env.agentSocket then { base with agent := env.agentSocket } else base
    if strTruthy host.identityFile && env.fileExists (host.identityFile.getD "") then
      { base with privateKey := some (env.readFile (host.identityFile.getD "")) }
    else base

/-- `applyDirectOptions` from src/ssh/client.ts lines 144–154: with no
options the host is returned unchanged; otherwise `username`, `port` and
`privateKeyPath` replace the record fields via JS `||` (so only when
truthy), while `password` is taken from the options verbatim. -/
def applyDirectOptions (host : SSHHost) (options : Option DirectConnectionOptions) : SSHHost :=
  match options with
  | none => host
  | some o =>
    { host with
      user := if strTruthy o.username then o.username.getD "" else host.user
      password := o.password
      port := if natTruthy o.port then o.port.getD 0 else host.port
      identityFile := if strTruthy o.privateKeyPath then o.privateKeyPath else host.identityFile }

/-! ## Host resolution — src/ssh/config.ts lines 122–141 -/

/-- `process.env.USER || process.env.USERNAME || "root"`. -/
def defaultUser (envUser envUsername : Option String) : String :=
  if strTruthy envUser then envUser.getD ""
  else if strTruthy envUsername then envUsername.getD ""
  else "root"

/-- `findHost` from src/ssh/config.ts: exact-name lookup in the parsed alias
store. -/
def findHost (hosts : List SSHHost) (name : String) : Option SSHHost :=
  hosts.find? (fun h => h.name == name)

/-- `resolveHost` from src/ssh/config.ts lines 130–141: a configured host
wins; an unknown identifier is treated literally as a hostname with port 22
and the current-user default.  Resolution is a total function — it raises
no error. -/
def resolveHost (hosts : List SSHHost) (envUser envUsername : Option String)
    (nameOrHostname : String) : SSHHost :=
  match findHost hosts nameOrHostname with
  | some found => found
  | none =>
    { name := nameOrHostname
      hostname := nameOrHostname
      port := 22
      user := defaultUser envUser envUsername }

/-! ## `sanitizeError` — src/ssh/client.ts lines 14–22

The source chains five global, case-insensitive regex replacements of the
shape `/kw[=:\s]+\S+/gi → "kw: [REDACTED]"`.  The scanner below models one
such replacement: at each position it tries to match the keyword (case
insensitively), then one or more separator characters (`=`, `:` or
whitespace), then one or more non-space characters (greedily; when the
separator run ends the input, the regex backtracks to leave a trailing
non-space separator as the `\S+` part).  A match is replaced and scanning
resumes after it, leaving the replacement text unscanned, as with a JS
global replace. -/

/-- The `[=:\s]` character class. -/
def isSepChar (c : Char) : Bool := c == '=' || c == ':' || c.isWhitespace

/-- Case-insensitive keyword match at the head; returns the remaining input. -/
def matchKeywordCI : List Char → List Char → Option (List Char)
  | [], s => some s
  | _ :: _, [] => none
  | k :: ks, c :: cs => if c.toLower == k.toLower then matchKeywordCI ks cs else none

/-- Case-insensitive equality of a keyword with a segment of the same
length, oriented exactly as the comparison in `matchKeywordCI`. -/
def ciEq : List Char → List Char → Bool
  | [], [] => true
  | k :: ks, c :: cs => c.toLower == k.toLower && ciEq ks cs
  | _, _ => false

/-- The backtracking of `[=:\s]+\S+` when the separator run ends the input:
the greedy separator run shrinks until `\S+` can take the run's last
non-whitespace character (`=` or `:`), which must leave at least one
separator before it; the match then ends at that character, leaving the
run's trailing whitespace unconsumed.  Returns that remainder, or `none`
when no such split exists. -/
def backtrackSplit (seps : List Char) : Option (List Char) :=
  let rev := seps.reverse
  let ws := rev.takeWhile Char.isWhitespace
  match rev.dropWhile Char.isWhitespace with
  | [] => none
  | _ :: rem => if rem.isEmpty then none else some ws.reverse

/-- Match `[=:\s]+\S+` at the head; returns the input after the match.  When
the separator run is followed by more input, its first character is
necessarily non-space, so the greedy match succeeds outright; when the run
ends the input, the regex backtracks per `backtrackSplit`. -/
def matchTail (s : List Char) : Option (List Char) :=
  let seps := s.takeWhile isSepChar
  let rest := s.dropWhile isSepChar
  if seps.isEmpty then none
  else if rest.isEmpty then backtrackSplit seps
  else some (rest.dropWhile (fun c => !c.isWhitespace))

/-- Match the whole pattern `kw[=:\s]+\S+` at the head of `s`. -/
def tryMatch (kw s : List Char) : Option (List Char) :=
  (matchKeywordCI kw s).bind matchTail

/-- One global replacement pass, fueled for structural recursion; fuel equal
to the input length always suffices because a match consumes at least two
characters and a non-match consumes one. -/
def replacePatternAux (kw repl : List Char) : Nat → List Char → List Char
  | _, [] => []
  | 0, l => l
  | fuel + 1, c :: cs =>
    match tryMatch kw (c :: cs) with
    | some rest => repl ++ replacePatternAux kw repl fuel rest
    | none => c :: replacePatternAux kw repl fuel cs

def replacePattern (kw repl l : List Char) : List Char := replacePatternAux kw repl l.length l

/-- The five chained replacements of `sanitizeError`, in source order. -/
def redactionPasses : List (List Char × List Char) :=
  [("password".data, "password: [REDACTED]".data),
   ("key".data, "key: [REDACTED]".data),
   ("secret".data, "secret: [REDACTED]".data),
   ("token".data, "token: [REDACTED]".data),
   ("auth".data, "auth: [REDACTED]".data)]

/-- `sanitizeError` from src/ssh/client.ts lines 14–22. -/
def sanitizeError (msg : String) : String :=
  ⟨redactionPasses.foldl (fun acc p => replacePattern p.1 p.2 acc) msg.data⟩

/-! ## `executeCommand` — src/ssh/client.ts lines 204–257 -/

/-- The observable outcome of the per-host session underlying one
`executeCommand` call: the remote process completed with captured streams
and an exit code, the `exec` request failed, or the connection itself
failed (the rejection of `connect` caught by the `try`). -/
inductive SessionOutcome where
  | completed (stdout stderr : String) (exitCode : Int)
  | execError (message : String)
  | connectError (message : String)
deriving DecidableEq

/-- Per-host execution result (src/types.ts); absent optional fields are
`none`. -/
structure ExecuteResult where
  host : String
  success : Bool
  stdout : Option String := none
  stderr : Option String := none
  exitCode : Option Int := none
  error : Option String := none
deriving DecidableEq

/-- JS `String.prototype.trim` via the list model. -/
def strTrim (s : String) : String := ⟨trimL s.data⟩

/-- `executeCommand` from src/ssh/client.ts lines 204–257, as a function of
the session outcome: on stream close the result carries
`success = (code === 0)` with the trimmed streams and the exit code; an
`exec` error or a `connect` rejection yields a failure result whose only
payload is the sanitized error message. -/
def executeCommand (hostName : String) (outcome : SessionOutcome) : ExecuteResult :=
  match outcome with
  | SessionOutcome.completed out err code =>
    { host := hostName
      success := code == 0
      stdout := some (strTrim out)
      stderr := some (strTrim err)
      exitCode := some code }
  | SessionOutcome.execError msg =>
    { host := hostName, success := false, error := some (sanitizeError msg) }
  | SessionOutcome.connectError msg =>
    { host := hostName, success := false, error := some (sanitizeError msg) }

/-- A concrete environment in which the SSH agent is reachable and the
configured identity file exists: used to exhibit the joint offering of
agent and identity-file material. -/
def sampleEnv : SSHEnv :=
  { strictHostKeyChecking := false
    knownHostsContent := ""
    agentSocket := some "/run/user/1000/ssh-agent.sock"
    fileExists := fun _ => true
    readFile := fun _ => "KEYMATERIAL" }

/-- A host record with no password and a configured identity file. -/
def sampleHost : SSHHost :=
  { name := "web1"
    hostname := "web1.example.com"
    port := 22
    user := "deploy"
    identityFile := some "/home/deploy/.ssh/id_ed25519" }

/-! ## Helper lemmas -/

lemma map_safe_all (l : List Char) :
    (l.map (fun c => if isSafeHostChar c then c else '_')).all isSafeHostChar = true := by
  induction l with
  | nil => rfl
  | cons c cs ih =>
    simp only [List.map_cons, List.all_cons, Bool.and_eq_true]
    refine ⟨?_, ih⟩
    rcases Bool.eq_false_or_eq_true (isSafeHostChar c) with h | h
    · rw [if_pos h]
      exact h
    · rw [if_neg (by simp [h])]
      decide

lemma verifyKey_false_of_not_found (m : KnownHostsMap) (key : String) :
    ∀ vs : List String, (∀ v ∈ vs, mapGet m v = none) → verifyKey m vs key = false := by
  intro vs
  induction vs with
  | nil => intro _; rfl
  | cons v vs ih =>
    intro h
    have hv : mapGet m v = none := h v (by simp)
    simp only [verifyKey, hv]
    exact ih (fun x hx => h x (by simp [hx]))

lemma verifyKey_true_found (m : KnownHostsMap) (key : String) :
    ∀ vs : List String, verifyKey m vs key = true →
      ∃ v ∈ vs, ∃ ks, mapGet m v = some ks ∧ ∃ kk ∈ ks, kk.keyData = key := by
  intro vs
  induction vs with
  | nil => intro h; exact absurd h (by simp [verifyKey])
  | cons v vs ih =>
    intro h
    cases hv : mapGet m v with
    | some ks =>
      simp only [verifyKey, hv] at h
      obtain ⟨kk, hmem, hkk⟩ := List.any_eq_true.mp h
      exact ⟨v, by simp, ks, hv, kk, hmem, by simpa using hkk⟩
    | none =>
      simp only [verifyKey, hv] at h
      obtain ⟨v', hv', rest⟩ := ih h
      exact ⟨v', by simp [hv'], rest⟩

lemma bracketed_ne_empty (x y : String) : ("[" ++ x ++ "]:" ++ y) ≠ "" := by
  intro hx
  have hdata := congrArg String.data hx
  simp [String.data_append] at hdata

lemma hostVariants_eq (hostname : String) (port : Nat) (h : hostname ≠ "") :
    hostVariants hostname port =
      hostname :: (if port ≠ 22 then ["[" ++ hostname ++ "]:" ++ toString port] else []) := by
  unfold hostVariants
  have hb : (hostname != "") = true := by simp [bne_iff_ne, h]
  have hbr : (("[" ++ hostname ++ "]:" ++ toString port) != "") = true := by
    simp [bne_iff_ne, bracketed_ne_empty hostname (toString port)]
  by_cases hp : port = 22
  · simp [hp, List.filterMap_cons, List.filter, hb]
  · simp [hp, List.filterMap_cons, List.filter, hb, hbr]

lemma strTruthy_getD_ne (o : Option String) (h : strTruthy o = true) : o.getD "" ≠ "" := by
  cases o with
  | none => simp [strTruthy] at h
  | some s => simpa [strTruthy, bne_iff_ne] using h

lemma defaultUser_ne_empty (u uu : Option String) : defaultUser u uu ≠ "" := by
  unfold defaultUser
  by_cases h1 : strTruthy u = true
  · simpa [h1] using strTruthy_getD_ne u h1
  · by_cases h2 : strTruthy uu = true
    · simpa [h1, h2] using strTruthy_getD_ne uu h2
    · simp [h1, h2]

/-! ## C10 — host-name sanitization -/

/-- C10: `sanitizeHostName` is idempotent, and its output contains only
alphanumeric characters, dots, underscores and hyphens (the
`SAFE_HOST_PATTERN` class). -/
theorem sanitizeHostName_idempotent_and_safe (s : String) :
    sanitizeHostName (sanitizeHostName s) = sanitizeHostName s ∧
    (sanitizeHostName s).data.all isSafeHostChar = true := by
  by_cases h : (!s.data.isEmpty && s.data.all isSafeHostChar) = true
  · have hs : sanitizeHostName s = s := by simp [sanitizeHostName, h]
    refine ⟨by rw [hs, hs], ?_⟩
    rw [hs]
    exact (Bool.and_eq_true _ _ |>.mp h).2
  · have hs : sanitizeHostName s =
        ⟨s.data.map (fun c => if isSafeHostChar c then c else '_')⟩ := by
      unfold sanitizeHostName
      rw [if_neg h]
    refine ⟨?_, by rw [hs]; exact map_safe_all s.data⟩
    rw [hs]
    by_cases hnil : s.data.isEmpty = true
    · have hd : s.data = [] := by simpa using hnil
      rw [hd]
      rfl
    · have hne : (s.data.map (fun c => if isSafeHostChar c then c else '_')).isEmpty = false := by
        simp only [Bool.not_eq_true] at hnil
        simpa [List.isEmpty_iff, List.isEmpty_eq_false_iff_exists_mem] using
          (by simpa [List.isEmpty_iff] using hnil : s.data ≠ [])
      unfold sanitizeHostName
      rw [if_pos (by simp [hne, map_safe_all s.data])]

/-! ## C9 — bounded-concurrency runner at limit 1 -/

/-- C9: for a worker that is a pure function of its item, `runWithConcurrency`
at limit 1 returns exactly the sequential in-order map of the worker over
the items. -/
theorem runWithConcurrency_limit_one_eq_sequential {α β : Type} (items : List α) (w : α → β) :
    runWithConcurrency items (fun x => (Except.ok (w x) : Except String β)) 1 =
      Except.ok (sequentialMap items w) := by
  induction items with
  | nil => rfl
  | cons x xs ih =>
    have hstep : runWithConcurrency (x :: xs) (fun y => (Except.ok (w y) : Except String β)) 1 =
        (runWithConcurrency xs (fun y => (Except.ok (w y) : Except String β)) 1).map
          (fun rs => w x :: rs) := rfl
    rw [hstep, ih]
    rfl

/-! ## C6 — download local-path derivation -/

/-- C6 counterexample: for the multi-host suffix case, the source's
`join(dirname, base_host + ext)` normalizes the result, so
`"./out.txt"` with host `web1` derives `"out_web1.txt"`, not the claimed
`"./out_web1.txt"`. -/
theorem download_suffix_counterexample :
    downloadPathForHost ["web1", "web2"] "./out.txt" "web1" = Except.ok "out_web1.txt" ∧
    ("out_web1.txt" : String) ≠ "./out_web1.txt" :=
  ⟨rfl, by decide⟩

/-- C6 amended: the placeholder case keeps the un-normalized substituted
path (`./logs/web1.log`), the multi-host suffix case yields the normalized
`out_web1.txt` / `out_web2.txt` (the leading `./` is stripped by `join`),
and the single-host case leaves the path unchanged. -/
theorem download_path_derivation :
    downloadPathForHost ["web1", "web2"] "./logs/{host}.log" "web1" =
      Except.ok "./logs/web1.log" ∧
    downloadPathForHost ["web1", "web2"] "./logs/{host}.log" "web2" =
      Except.ok "./logs/web2.log" ∧
    downloadPathForHost ["web1", "web2"] "./out.txt" "web1" = Except.ok "out_web1.txt" ∧
    downloadPathForHost ["web1", "web2"] "./out.txt" "web2" = Except.ok "out_web2.txt" ∧
    downloadPathForHost ["web1"] "./out.txt" "web1" = Except.ok "./out.txt" :=
  ⟨rfl, rfl, rfl, rfl, rfl⟩

/-! ## C2 — path-safety failure is not isolated to its host -/

/-- C2: with hosts `[".."​, "web2"]` and local path `./{host}/out.log`, the
host `".."` (every character of which is in the safe class, so
sanitization keeps it) substitutes to `./../out.log`, which normalizes to
the parent escape `../out.log`.  The source worker throws for that host,
and `runWithConcurrency` turns the synchronous throw into a rejection of
the whole batch: the result is a single error and no per-host result list,
for every concurrency limit and every download oracle — in particular the
oracle is never consulted, so no file is written, but host `web2` (whose
own derivation succeeds, second conjunct) gets no result either, contrary
to the per-host isolation the specification requires. -/
theorem download_escape_aborts_batch (conc : Nat)
    (download : String → String → String → TransferResult) :
    transferDownload conc ["..", "web2"] "./{host}/out.log" "/var/log/app.log" download =
      Except.error "Invalid path after host substitution: ../out.log" ∧
    downloadPathForHost ["..", "web2"] "./{host}/out.log" "web2" =
      Except.ok "./web2/out.log" :=
  ⟨rfl, rfl⟩

/-! ## C1 — strict host-key verification -/

/-- C1: in strict mode the installed verifier is the candidate-key loop over
the parsed known-hosts map, and for every hostname (non-empty, per the
data-model invariant), port and presented key: (i) with no entry under any
candidate key the verifier rejects; (ii) it accepts only when some stored
key material under a candidate key equals the presented key's base64 form;
(iii) when an entry exists under the hostname itself (the first candidate)
but none of its materials matches, it rejects without falling through to
the `[hostname]:port` candidate. -/
theorem strict_host_verifier_spec (content hostname : String) (port : Nat) (keyB64 : String)
    (hne : hostname ≠ "") :
    createHostVerifier true content hostname port =
      some (fun k => verifyKey (parseKnownHosts content) (hostVariants hostname port) k) ∧
    ((∀ v ∈ hostVariants hostname port, mapGet (parseKnownHosts content) v = none) →
      verifyKey (parseKnownHosts content) (hostVariants hostname port) keyB64 = false) ∧
    (verifyKey (parseKnownHosts content) (hostVariants hostname port) keyB64 = true →
      ∃ v ∈ hostVariants hostname port, ∃ ks,
        mapGet (parseKnownHosts content) v = some ks ∧ ∃ kk ∈ ks, kk.keyData = keyB64) ∧
    (∀ ks, mapGet (parseKnownHosts content) hostname = some ks →
      (∀ kk ∈ ks, kk.keyData ≠ keyB64) →
      verifyKey (parseKnownHosts content) (hostVariants hostname port) keyB64 = false) := by
  refine ⟨rfl, ?_, ?_, ?_⟩
  · exact verifyKey_false_of_not_found (parseKnownHosts content) keyB64 _
  · exact verifyKey_true_found (parseKnownHosts content) keyB64 _
  · intro ks hks hall
    rw [hostVariants_eq hostname port hne]
    simp only [verifyKey, hks]
    cases hb : ks.any (fun kk => kk.keyData == keyB64) with
    | false => rfl
    | true =>
      obtain ⟨kk, hmem, hkk⟩ := List.any_eq_true.mp hb
      exact absurd (by simpa using hkk) (hall kk hmem)

/-- C1 witness: port 2222 with a known-hosts file that stores a non-matching
key under `web1` and the presented key under `[web1]:2222`; the verifier
still rejects, because the `web1` entry is found first and does not match. -/
theorem strict_host_verifier_spec_witness :
    verifyKey (parseKnownHosts "web1 ssh-rsa KEYA\n[web1]:2222 ssh-rsa KEYB")
      (hostVariants "web1" 2222) "KEYB" = false := by
  have h := strict_host_verifier_spec "web1 ssh-rsa KEYA\n[web1]:2222 ssh-rsa KEYB"
    "web1" 2222 "KEYB" (by decide)
  exact h.2.2.2 [⟨"ssh-rsa", "KEYA"⟩] (by decide) (by decide)

/-! ## C3 — authentication-material fallback chain -/

/-- C3 counterexample: with no password, a reachable agent socket and an
existing identity file, `createConnectConfig` offers the agent **and**
reads the identity file into `privateKey` — the identity-file mechanism
is not reserved for the agent-unreachable case, refuting the claimed
exclusive "otherwise (and only then)" chain. -/
theorem auth_chain_counterexample :
    (createConnectConfig sampleEnv sampleHost none).agent =
      some "/run/user/1000/ssh-agent.sock" ∧
    (createConnectConfig sampleEnv sampleHost none).privateKey = some "KEYMATERIAL" :=
  ⟨rfl, rfl⟩

/-- C3 amended: a (truthy) password short-circuits the chain — no agent and
no private key are offered; otherwise the password field stays empty, the
agent socket is offered exactly when truthy, and — independently of the
agent — an existing identity file is read and its contents offered as the
private key. -/
theorem auth_material_selection (env : SSHEnv) (host : SSHHost) (timeout : Option Nat) :
    (strTruthy host.password = true →
      (createConnectConfig env host timeout).password = host.password ∧
      (createConnectConfig env host timeout).agent = none ∧
      (createConnectConfig env host timeout).privateKey = none) ∧
    (strTruthy host.password = false →
      (createConnectConfig env host timeout).password = none ∧
      (createConnectConfig env host timeout).agent =
        (if strTruthy env.agentSocket then env.agentSocket else none) ∧
      ((strTruthy host.identityFile && env.fileExists (host.identityFile.getD "")) = true →
        (createConnectConfig env host timeout).privateKey =
          some (env.readFile (host.identityFile.getD "")))) := by
  constructor
  · intro h
    unfold createConnectConfig
    rw [if_pos h]
    exact ⟨rfl, rfl, rfl⟩
  · intro h
    unfold createConnectConfig
    rw [if_neg (by simp [h])]
    by_cases ha : strTruthy env.agentSocket = true
    · rw [if_pos ha, if_pos ha]
      by_cases hid : (strTruthy host.identityFile && env.fileExists (host.identityFile.getD "")) = true
      · rw [if_pos hid]
        exact ⟨rfl, rfl, fun _ => rfl⟩
      · rw [if_neg hid]
        exact ⟨rfl, rfl, fun hc => absurd hc hid⟩
    · rw [if_neg ha, if_neg ha]
      by_cases hid : (strTruthy host.identityFile && env.fileExists (host.identityFile.getD "")) = true
      · rw [if_pos hid]
        exact ⟨rfl, rfl, fun _ => rfl⟩
      · rw [if_neg hid]
        exact ⟨rfl, rfl, fun hc => absurd hc hid⟩

/-- C3 witness: at the sample environment and host, the no-password branch
offers the identity file's key material. -/
theorem auth_material_selection_witness :
    (createConnectConfig sampleEnv sampleHost none).privateKey = some "KEYMATERIAL" := by
  have h := auth_material_selection sampleEnv sampleHost none
  exact (h.2 (by decide)).2.2 (by decide)

/-! ## C7 — override merging -/

/-- C7 counterexample: a *present* username override whose value is the
empty string does not replace the record's user (`"" || host.user` is
`host.user` under JS truthiness), refuting "each override field that is
present (defined) replaces the corresponding record field". -/
theorem override_merge_counterexample :
    (applyDirectOptions { name := "a", hostname := "a", port := 22, user := "root" }
        (some { username := some "", password := none, port := none,
                privateKeyPath := none })).user = "root" ∧
    ("root" : String) ≠ "" :=
  ⟨rfl, by decide⟩

/-- C7 amended: absent options leave the record unchanged; with options,
`username`, `port` and `privateKeyPath` replace the record fields exactly
when truthy (non-empty string, non-zero port) and otherwise leave them
untouched, while `password` is taken from the options verbatim; `name` and
`hostname` are never overridden. -/
theorem override_merge (host : SSHHost) :
    applyDirectOptions host none = host ∧
    ∀ o : DirectConnectionOptions,
      (strTruthy o.username = true →
        (applyDirectOptions host (some o)).user = o.username.getD "") ∧
      (strTruthy o.username = false →
        (applyDirectOptions host (some o)).user = host.user) ∧
      (applyDirectOptions host (some o)).password = o.password ∧
      (natTruthy o.port = true → (applyDirectOptions host (some o)).port = o.port.getD 0) ∧
      (natTruthy o.port = false → (applyDirectOptions host (some o)).port = host.port) ∧
      (strTruthy o.privateKeyPath = true →
        (applyDirectOptions host (some o)).identityFile = o.privateKeyPath) ∧
      (strTruthy o.privateKeyPath = false →
        (applyDirectOptions host (some o)).identityFile = host.identityFile) ∧
      (applyDirectOptions host (some o)).name = host.name ∧
      (applyDirectOptions host (some o)).hostname = host.hostname := by
  refine ⟨rfl, fun o => ⟨?_, ?_, rfl, ?_, ?_, ?_, ?_, rfl, rfl⟩⟩
  · intro h
    simp only [applyDirectOptions]
    rw [if_pos h]
  · intro h
    simp only [applyDirectOptions]
    rw [if_neg (by simp [h])]
  · intro h
    simp only [applyDirectOptions]
    rw [if_pos h]
  · intro h
    simp only [applyDirectOptions]
    rw [if_neg (by simp [h])]
  · intro h
    simp only [applyDirectOptions]
    rw [if_pos h]
  · intro h
    simp only [applyDirectOptions]
    rw [if_neg (by simp [h])]

/-- C7 witness: a truthy username override replaces the record's user. -/
theorem override_merge_witness :
    (applyDirectOptions { name := "a", hostname := "1.2.3.4", port := 22, user := "root" }
        (some { username := some "admin", password := some "pw", port := some 2200,
                privateKeyPath := none })).user = "admin" := by
  have h := override_merge { name := "a", hostname := "1.2.3.4", port := 22, user := "root" }
  exact (h.2 _).1 (by decide)

/-! ## C8 — resolution of unknown host identifiers -/

/-- C8: an identifier with no alias-store entry resolves — with no error,
`resolveHost` being total — to a record whose hostname is the identifier
itself, whose port is 22, and whose user (`USER || USERNAME || "root"`)
is non-empty. -/
theorem resolve_unknown_host (store : List SSHHost) (envUser envUsername : Option String)
    (identifier : String) (h : findHost store identifier = none) :
    (resolveHost store envUser envUsername identifier).hostname = identifier ∧
    (resolveHost store envUser envUsername identifier).port = 22 ∧
    (resolveHost store envUser envUsername identifier).user ≠ "" := by
  unfold resolveHost
  rw [h]
  exact ⟨rfl, rfl, defaultUser_ne_empty envUser envUsername⟩

/-- C8 witness: a bare IP against an empty store. -/
theorem resolve_unknown_host_witness :
    (resolveHost [] none none "10.0.0.5").hostname = "10.0.0.5" ∧
    (resolveHost [] none none "10.0.0.5").port = 22 ∧
    (resolveHost [] none none "10.0.0.5").user ≠ "" :=
  resolve_unknown_host [] none none "10.0.0.5" rfl

/-! ## C5 — per-host execution result shape -/

/-- C5: when the remote process completes, the result's success is exactly
`exitCode == 0`, with the trimmed stdout and stderr captured separately and
no error field; an exec or connection failure instead yields success
`false`, a populated (sanitized) error, and no exitCode, stdout or
stderr. -/
theorem execute_result_shape (hostName : String) (o : SessionOutcome) :
    (∀ out err code, o = SessionOutcome.completed out err code →
      (executeCommand hostName o).success = (code == 0) ∧
      (executeCommand hostName o).exitCode = some code ∧
      (executeCommand hostName o).stdout = some (strTrim out) ∧
      (executeCommand hostName o).stderr = some (strTrim err) ∧
      (executeCommand hostName o).error = none) ∧
    (∀ msg, o = SessionOutcome.execError msg ∨ o = SessionOutcome.connectError msg →
      (executeCommand hostName o).success = false ∧
      (executeCommand hostName o).error = some (sanitizeError msg) ∧
      (executeCommand hostName o).exitCode = none ∧
      (executeCommand hostName o).stdout = none ∧
      (executeCommand hostName o).stderr = none) := by
  constructor
  · intro out err code hc
    subst hc
    exact ⟨rfl, rfl, rfl, rfl, rfl⟩
  · intro msg hc
    rcases hc with hc | hc <;> subst hc <;> exact ⟨rfl, rfl, rfl, rfl, rfl⟩

/-- C5 witness: a completed `true` run succeeds with exit code 0; an
unresolvable host's connection failure carries no exit code. -/
theorem execute_result_shape_witness :
    (executeCommand "h1" (SessionOutcome.completed "ok" "" 0)).success = true ∧
    (executeCommand "nonexistent"
      (SessionOutcome.connectError "getaddrinfo ENOTFOUND nonexistent")).exitCode = none := by
  constructor
  · exact ((execute_result_shape "h1" (SessionOutcome.completed "ok" "" 0)).1 "ok" "" 0 rfl).1
  · exact ((execute_result_shape "nonexistent"
      (SessionOutcome.connectError "getaddrinfo ENOTFOUND nonexistent")).2
      "getaddrinfo ENOTFOUND nonexistent" (Or.inr rfl)).2.2.1

/-! ## C4 — error sanitization -/

lemma replacePatternAux_nil (kw repl : List Char) (fuel : Nat) :
    replacePatternAux kw repl fuel [] = [] := by
  cases fuel <;> rfl

lemma not_ws_of_not_sep {c : Char} (h : isSepChar c = false) : c.isWhitespace = false := by
  unfold isSepChar at h
  rcases Bool.or_eq_false_iff.mp h with ⟨-, hw⟩
  exact hw

/-- The `[=:\s]` class, exhaustively. -/
lemma sep_cases (c : Char) (h : isSepChar c = true) :
    c = '=' ∨ c = ':' ∨ c = ' ' ∨ c = '\t' ∨ c = '\r' ∨ c = '\n' := by
  unfold isSepChar Char.isWhitespace at h
  simp only [Bool.or_eq_true, beq_iff_eq, decide_eq_true_eq] at h
  tauto

/-- A separator character never case-folds to a lower-case letter. -/
lemma sep_toLower_beq_eq_false (c k : Char) (hc : isSepChar c = true)
    (hk : k.toLower = k ∧ ('a' ≤ k ∧ k ≤ 'z')) : (c.toLower == k.toLower) = false := by
  obtain ⟨hfix, hlo, hhi⟩ := hk
  rw [hfix]
  have hne : c.toLower ≠ k := by
    rcases sep_cases c hc with rfl | rfl | rfl | rfl | rfl | rfl <;>
      (intro he; rw [← he] at hlo hhi; revert hlo hhi; decide)
  simpa using hne

lemma matchKeywordCI_self_append (kw rest : List Char) :
    matchKeywordCI kw (kw ++ rest) = some rest := by
  induction kw with
  | nil => rfl
  | cons k ks ih => simp [matchKeywordCI, ih]

lemma matchKeywordCI_suffix (kw : List Char) :
    ∀ s r : List Char, matchKeywordCI kw s = some r → r <:+ s := by
  induction kw with
  | nil =>
    intro s r h
    cases h
    exact List.suffix_refl _
  | cons k ks ih =>
    intro s r h
    cases s with
    | nil => cases h
    | cons c cs =>
      unfold matchKeywordCI at h
      by_cases hb : (c.toLower == k.toLower) = true
      · rw [if_pos hb] at h
        exact (ih cs r h).trans (List.suffix_cons c cs)
      · rw [if_neg hb] at h
        cases h

/-- Where a keyword match against an appended input can land: either it is
consumed inside the first part (case-insensitively equal to its prefix),
or it runs off the first part's end and continues on the second. -/
lemma matchKeywordCI_append_split (kw : List Char) :
    ∀ xs ys r : List Char, matchKeywordCI kw (xs ++ ys) = some r →
      (kw.length ≤ xs.length ∧ ciEq kw (xs.take kw.length) = true ∧
        r = xs.drop kw.length ++ ys) ∨
      (xs.length < kw.length ∧ matchKeywordCI (kw.drop xs.length) ys = some r) := by
  induction kw with
  | nil =>
    intro xs ys r h
    cases h
    exact Or.inl ⟨Nat.zero_le _, rfl, rfl⟩
  | cons k ks ih =>
    intro xs ys r h
    cases xs with
    | nil =>
      right
      exact ⟨Nat.succ_pos _, by simpa using h⟩
    | cons x xs' =>
      rw [List.cons_append] at h
      unfold matchKeywordCI at h
      by_cases hb : (x.toLower == k.toLower) = true
      · rw [if_pos hb] at h
        rcases ih xs' ys r h with ⟨h1, h2, h3⟩ | ⟨h1, h2⟩
        · left
          refine ⟨Nat.succ_le_succ h1, ?_, h3⟩
          simpa [List.take, ciEq, hb] using h2
        · right
          exact ⟨Nat.succ_lt_succ h1, h2⟩
      · rw [if_neg hb] at h
        cases h

/-- `[=:\s]+\S+` cannot match input that starts with no separator at all. -/
lemma matchTail_none_of_no_sep (s : List Char) (h : ∀ c ∈ s, isSepChar c = false) :
    matchTail s = none := by
  cases s with
  | nil => rfl
  | cons c cs =>
    have hc : isSepChar c = false := h c (by simp)
    unfold matchTail
    rw [List.takeWhile_cons_of_neg (by simp [hc])]
    simp

lemma takeWhile_append_all (p : Char → Bool) (xs ys : List Char)
    (h : ∀ c ∈ xs, p c = true) :
    (xs ++ ys).takeWhile p = xs ++ ys.takeWhile p := by
  induction xs with
  | nil => rfl
  | cons x xs' ih =>
    rw [List.cons_append, List.takeWhile_cons_of_pos (by simp [h x (by simp)]),
      ih (fun c hc => h c (by simp [hc])), List.cons_append]

lemma dropWhile_append_all (p : Char → Bool) (xs ys : List Char)
    (h : ∀ c ∈ xs, p c = true) :
    (xs ++ ys).dropWhile p = ys.dropWhile p := by
  induction xs with
  | nil => rfl
  | cons x xs' ih =>
    rw [List.cons_append, List.dropWhile_cons_of_pos (by simp [h x (by simp)]),
      ih (fun c hc => h c (by simp [hc]))]

/-- `[=:\s]+\S+` against a non-empty separator run followed by a non-empty
separator-free word consumes the whole input. -/
lemma matchTail_seprun_word (seps pwd : List Char) (hs : seps ≠ [])
    (hsall : ∀ c ∈ seps, isSepChar c = true) (hpw : pwd ≠ [])
    (hall : ∀ c ∈ pwd, isSepChar c = false) :
    matchTail (seps ++ pwd) = some [] := by
  obtain ⟨p0, pw', rfl⟩ := List.exists_cons_of_ne_nil hpw
  have hp0 : isSepChar p0 = false := hall p0 (by simp)
  have htk : List.takeWhile isSepChar (seps ++ p0 :: pw') = seps := by
    rw [takeWhile_append_all isSepChar seps _ hsall,
      List.takeWhile_cons_of_neg (by simp [hp0]), List.append_nil]
  have hdr : List.dropWhile isSepChar (seps ++ p0 :: pw') = p0 :: pw' := by
    rw [dropWhile_append_all isSepChar seps _ hsall,
      List.dropWhile_cons_of_neg (by simp [hp0])]
  have h3 : List.dropWhile (fun c => !c.isWhitespace) (p0 :: pw') = [] := by
    apply List.dropWhile_eq_nil_iff.mpr
    intro x hx
    simp [not_ws_of_not_sep (hall x hx)]
  obtain ⟨s0, s', rfl⟩ := List.exists_cons_of_ne_nil hs
  unfold matchTail
  simp only [htk, hdr, h3, List.isEmpty_cons, if_false, Bool.false_eq_true]

/-- Suffixes of an appended list either lie in the second part or are a
non-empty suffix of the first part followed by the whole second part. -/
lemma suffix_append_cases {t xs ys : List Char} (h : t <:+ xs ++ ys) :
    t <:+ ys ∨ ∃ x_suf, x_suf <:+ xs ∧ x_suf ≠ [] ∧ t = x_suf ++ ys := by
  induction xs with
  | nil => exact Or.inl h
  | cons x xs' ih =>
    rw [List.cons_append] at h
    rcases List.suffix_cons_iff.mp h with h | h
    · exact Or.inr ⟨x :: xs', List.suffix_refl _, by simp, by simpa using h⟩
    · rcases ih h with h | ⟨x_suf, h1, h2, h3⟩
      · exact Or.inl h
      · exact Or.inr ⟨x_suf, h1.trans (List.suffix_cons x xs'), h2, h3⟩

/-- The no-match core: on a message of the shape
`label ++ separators ++ credential`, a pass for a *different* keyword
(lower-case, and case-insensitively equal to no non-empty suffix of the
label) matches at no position: a candidate keyword occurrence would have
to be followed by a separator, separators exist only in the middle run,
and there the keyword comparison or the separator requirement fails. -/
lemma tryMatch_none_at_label_suffix
    (kw' : List Char) (hkw' : kw' ≠ [])
    (hlet : ∀ k ∈ kw', k.toLower = k ∧ ('a' ≤ k ∧ k ≤ 'z'))
    (kw : List Char) (hkwch : ∀ c ∈ kw, isSepChar c = false)
    (hnosuf : ∀ t ∈ kw.tails, t ≠ [] → ciEq kw' t = false)
    (seps : List Char) (hs : seps ≠ []) (hsall : ∀ c ∈ seps, isSepChar c = true)
    (pwd : List Char) (hall : ∀ c ∈ pwd, isSepChar c = false)
    (t : List Char) (ht : t <:+ kw ++ (seps ++ pwd)) :
    tryMatch kw' t = none := by
  rcases suffix_append_cases ht with hA | ⟨ksuf, hksuf, hkne, rfl⟩
  · rcases suffix_append_cases hA with hA1 | ⟨ssuf, hssuf, hsne, rfl⟩
    · -- t inside the credential: no separator can follow a keyword there
      unfold tryMatch
      cases hm : matchKeywordCI kw' t with
      | none => rfl
      | some r =>
        have hr : r <:+ t := matchKeywordCI_suffix kw' t r hm
        have hrs : ∀ c ∈ r, isSepChar c = false :=
          fun c hc => hall c (hA1.subset (hr.subset hc))
        show matchTail r = none
        exact matchTail_none_of_no_sep r hrs
    · -- t starts inside the separator run: the keyword mismatches at once
      obtain ⟨c, s', rfl⟩ := List.exists_cons_of_ne_nil hsne
      obtain ⟨a, kw'', rfl⟩ := List.exists_cons_of_ne_nil hkw'
      have hc : isSepChar c = true := hsall c (hssuf.subset (by simp))
      have hmis : (c.toLower == a.toLower) = false :=
        sep_toLower_beq_eq_false c a hc (hlet a (by simp))
      unfold tryMatch
      rw [List.cons_append]
      unfold matchKeywordCI
      rw [if_neg (by simp [hmis])]
      rfl
  · -- t starts inside the label
    unfold tryMatch
    cases hm : matchKeywordCI kw' (ksuf ++ (seps ++ pwd)) with
    | none => rfl
    | some r =>
      show matchTail r = none
      rcases matchKeywordCI_append_split kw' ksuf (seps ++ pwd) r hm with
        ⟨h1, h2, h3⟩ | ⟨h1, h2⟩
      · cases hd : ksuf.drop kw'.length with
        | nil =>
          have hlen : ksuf.length ≤ kw'.length := List.drop_eq_nil_iff.mp hd
          rw [List.take_of_length_le hlen] at h2
          have hfalse : ciEq kw' ksuf = false :=
            hnosuf ksuf ((List.mem_tails ksuf kw).mpr hksuf) hkne
          rw [h2] at hfalse
          cases hfalse
        | cons d rest' =>
          have hdmem : d ∈ kw :=
            hksuf.subset (List.drop_subset kw'.length ksuf (by rw [hd]; simp))
          have hdn : isSepChar d = false := hkwch d hdmem
          rw [hd, List.cons_append] at h3
          rw [h3]
          unfold matchTail
          rw [List.takeWhile_cons_of_neg (by simp [hdn])]
          simp
      · have hne2 : kw'.drop ksuf.length ≠ [] := by
          intro hnil
          have := List.drop_eq_nil_iff.mp hnil
          omega
        obtain ⟨a, rest', ha⟩ := List.exists_cons_of_ne_nil hne2
        have hamem : a ∈ kw' := (List.drop_subset ksuf.length kw') (by rw [ha]; simp)
        obtain ⟨c, s', rfl⟩ := List.exists_cons_of_ne_nil hs
        have hc : isSepChar c = true := hsall c (by simp)
        have hmis : (c.toLower == a.toLower) = false :=
          sep_toLower_beq_eq_false c a hc (hlet a hamem)
        rw [ha, List.cons_append] at h2
        unfold matchKeywordCI at h2
        rw [if_neg (by simp [hmis])] at h2
        cases h2

/-- A scan with no match anywhere leaves the input unchanged. -/
lemma replacePatternAux_id_of_no_match (kw repl : List Char) :
    ∀ (l : List Char) (fuel : Nat), (∀ t, t <:+ l → tryMatch kw t = none) →
      replacePatternAux kw repl fuel l = l := by
  intro l
  induction l with
  | nil =>
    intro fuel _
    cases fuel <;> rfl
  | cons c cs ih =>
    intro fuel h
    cases fuel with
    | zero => rfl
    | succ n =>
      have hm : tryMatch kw (c :: cs) = none := h (c :: cs) (List.suffix_refl _)
      show (match tryMatch kw (c :: cs) with
        | some rest => repl ++ replacePatternAux kw repl n rest
        | none => c :: replacePatternAux kw repl n cs) = c :: cs
      rw [hm]
      show c :: replacePatternAux kw repl n cs = c :: cs
      exact congrArg (c :: ·) (ih n (fun t ht => h t (ht.trans (List.suffix_cons c cs))))

/-- A pass for a different keyword leaves a labelled-credential message
unchanged. -/
lemma replacePattern_preserves_label_msg (kw' repl' : List Char) (hkw' : kw' ≠ [])
    (hlet : ∀ k ∈ kw', k.toLower = k ∧ ('a' ≤ k ∧ k ≤ 'z'))
    (kw : List Char) (hkwch : ∀ c ∈ kw, isSepChar c = false)
    (hnosuf : ∀ t ∈ kw.tails, t ≠ [] → ciEq kw' t = false)
    (seps : List Char) (hs : seps ≠ []) (hsall : ∀ c ∈ seps, isSepChar c = true)
    (pwd : List Char) (hall : ∀ c ∈ pwd, isSepChar c = false) :
    replacePattern kw' repl' (kw ++ (seps ++ pwd)) = kw ++ (seps ++ pwd) :=
  replacePatternAux_id_of_no_match kw' repl' (kw ++ (seps ++ pwd)) _
    (fun t ht => tryMatch_none_at_label_suffix kw' hkw' hlet kw hkwch hnosuf
      seps hs hsall pwd hall t ht)

/-- A pass for the message's own label replaces the whole
`label ++ separators ++ credential` message with the redaction text. -/
lemma replacePattern_redacts_label (kw repl : List Char) (hkw : kw ≠ [])
    (seps : List Char) (hs : seps ≠ []) (hsall : ∀ c ∈ seps, isSepChar c = true)
    (pwd : List Char) (hpw : pwd ≠ []) (hall : ∀ c ∈ pwd, isSepChar c = false) :
    replacePattern kw repl (kw ++ (seps ++ pwd)) = repl := by
  obtain ⟨k0, kw', rfl⟩ := List.exists_cons_of_ne_nil hkw
  have htm : tryMatch (k0 :: kw') ((k0 :: kw') ++ (seps ++ pwd)) = some [] := by
    unfold tryMatch
    rw [matchKeywordCI_self_append]
    show matchTail (seps ++ pwd) = some []
    exact matchTail_seprun_word seps pwd hs hsall hpw hall
  show replacePatternAux (k0 :: kw') repl ((kw' ++ (seps ++ pwd)).length + 1)
      (k0 :: (kw' ++ (seps ++ pwd))) = repl
  show (match tryMatch (k0 :: kw') (k0 :: (kw' ++ (seps ++ pwd))) with
    | some rest =>
      repl ++ replacePatternAux (k0 :: kw') repl (kw' ++ (seps ++ pwd)).length rest
    | none =>
      k0 :: replacePatternAux (k0 :: kw') repl (kw' ++ (seps ++ pwd)).length
        (kw' ++ (seps ++ pwd))) = repl
  rw [show tryMatch (k0 :: kw') (k0 :: (kw' ++ (seps ++ pwd))) = some [] from htm]
  show repl ++ replacePatternAux (k0 :: kw') repl (kw' ++ (seps ++ pwd)).length [] = repl
  rw [replacePatternAux_nil]
  exact List.append_nil _

/-- C4 counterexample: a connection error whose message embeds the supplied
password without a `password`/`key`/`secret`/`token`/`auth` label survives
sanitization verbatim — the sanitized message still contains the literal
password `hunter2`. -/
theorem sanitize_error_leak_counterexample :
    strContains (sanitizeError "Permission denied for hunter2") "hunter2" = true := by decide

/-- C4 amended: sanitization is pattern-based.  For **every** one of the five
recognized labels (`password`/`key`/`secret`/`token`/`auth`), **every**
non-empty separator run (`=`, `:`, whitespace, in any combination) and
**every** non-empty separator-free credential, a message reporting the
credential as the label's value sanitizes to exactly the label's redaction
text, so the sanitized message no longer contains the credential (provided
the credential is not itself a substring of the redaction text); a
credential occurring without such a label may survive, as the
counterexample shows. -/
theorem sanitize_error_redacts_labeled_credential
    (kw repl : List Char) (hmem : (kw, repl) ∈ redactionPasses)
    (seps : List Char) (hs : seps ≠ []) (hsall : ∀ c ∈ seps, isSepChar c = true)
    (pw : String) (hne : pw ≠ "") (hall : ∀ c ∈ pw.data, isSepChar c = false)
    (hfree : strContains (String.mk repl) pw = false) :
    sanitizeError (String.mk (kw ++ (seps ++ pw.data))) = String.mk repl ∧
    strContains (sanitizeError (String.mk (kw ++ (seps ++ pw.data)))) pw = false := by
  have hpw : pw.data ≠ [] := fun hnil => hne (congrArg String.mk hnil)
  have hmain : sanitizeError (String.mk (kw ++ (seps ++ pw.data))) = String.mk repl := by
    simp only [redactionPasses, List.mem_cons, List.not_mem_nil, or_false] at hmem
    rcases hmem with h | h | h | h | h
    · have hk : kw = "password".data := congrArg Prod.fst h
      have hr : repl = "password: [REDACTED]".data := congrArg Prod.snd h
      subst hk
      subst hr
      unfold sanitizeError
      simp only [redactionPasses, List.foldl_cons, List.foldl_nil]
      rw [replacePattern_redacts_label "password".data "password: [REDACTED]".data
        (by decide) seps hs hsall pw.data hpw hall]
      rfl
    · have hk : kw = "key".data := congrArg Prod.fst h
      have hr : repl = "key: [REDACTED]".data := congrArg Prod.snd h
      subst hk
      subst hr
      unfold sanitizeError
      simp only [redactionPasses, List.foldl_cons, List.foldl_nil]
      rw [replacePattern_preserves_label_msg "password".data "password: [REDACTED]".data
        (by decide) (by decide) "key".data (by decide) (by decide)
        seps hs hsall pw.data hall]
      rw [replacePattern_redacts_label "key".data "key: [REDACTED]".data
        (by decide) seps hs hsall pw.data hpw hall]
      rfl
    · have hk : kw = "secret".data := congrArg Prod.fst h
      have hr : repl = "secret: [REDACTED]".data := congrArg Prod.snd h
      subst hk
      subst hr
      unfold sanitizeError
      simp only [redactionPasses, List.foldl_cons, List.foldl_nil]
      rw [replacePattern_preserves_label_msg "password".data "password: [REDACTED]".data
        (by decide) (by decide) "secret".data (by decide) (by decide)
        seps hs hsall pw.data hall]
      rw [replacePattern_preserves_label_msg "key".data "key: [REDACTED]".data
        (by decide) (by decide) "secret".data (by decide) (by decide)
        seps hs hsall pw.data hall]
      rw [replacePattern_redacts_label "secret".data "secret: [REDACTED]".data
        (by decide) seps hs hsall pw.data hpw hall]
      rfl
    · have hk : kw = "token".data := congrArg Prod.fst h
      have hr : repl = "token: [REDACTED]".data := congrArg Prod.snd h
      subst hk
      subst hr
      unfold sanitizeError
      simp only [redactionPasses, List.foldl_cons, List.foldl_nil]
      rw [replacePattern_preserves_label_msg "password".data "password: [REDACTED]".data
        (by decide) (by decide) "token".data (by decide) (by decide)
        seps hs hsall pw.data hall]
      rw [replacePattern_preserves_label_msg "key".data "key: [REDACTED]".data
        (by decide) (by decide) "token".data (by decide) (by decide)
        seps hs hsall pw.data hall]
      rw [replacePattern_preserves_label_msg "secret".data "secret: [REDACTED]".data
        (by decide) (by decide) "token".data (by decide) (by decide)
        seps hs hsall pw.data hall]
      rw [replacePattern_redacts_label "token".data "token: [REDACTED]".data
        (by decide) seps hs hsall pw.data hpw hall]
      rfl
    · have hk : kw = "auth".data := congrArg Prod.fst h
      have hr : repl = "auth: [REDACTED]".data := congrArg Prod.snd h
      subst hk
      subst hr
      unfold sanitizeError
      simp only [redactionPasses, List.foldl_cons, List.foldl_nil]
      rw [replacePattern_preserves_label_msg "password".data "password: [REDACTED]".data
        (by decide) (by decide) "auth".data (by decide) (by decide)
        seps hs hsall pw.data hall]
      rw [replacePattern_preserves_label_msg "key".data "key: [REDACTED]".data
        (by decide) (by decide) "auth".data (by decide) (by decide)
        seps hs hsall pw.data hall]
      rw [replacePattern_preserves_label_msg "secret".data "secret: [REDACTED]".data
        (by decide) (by decide) "auth".data (by decide) (by decide)
        seps hs hsall pw.data hall]
      rw [replacePattern_preserves_label_msg "token".data "token: [REDACTED]".data
        (by decide) (by decide) "auth".data (by decide) (by decide)
        seps hs hsall pw.data hall]
      rw [replacePattern_redacts_label "auth".data "auth: [REDACTED]".data
        (by decide) seps hs hsall pw.data hpw hall]
  exact ⟨hmain, by rw [hmain]; exact hfree⟩

/-- C4 witness: the credential `hunter2` reported as `key=hunter2` is
redacted by the `key` pass. -/
theorem sanitize_error_redacts_labeled_credential_witness :
    strContains (sanitizeError "key=hunter2") "hunter2" = false :=
  (sanitize_error_redacts_labeled_credential "key".data "key: [REDACTED]".data
    (by decide) "=".data (by decide) (by decide) "hunter2" (by decide) (by decide)
    (by decide)).2

end EzSSH


